import Mathlib

/-!
# CloudEventSink: the capture-and-replay handler

A shallow embedding of `cloudeventsink.go`.  The program keeps one global slice
`msgs` of captured requests behind the mutex `msgsLock`, and registers a single
HTTP handler that dispatches on `r.Method`:

* `DELETE` replaces `msgs` by an empty slice;
* `GET` either writes `len(msgs)` in decimal (target `/count`) or writes every
  stored message as one part of a multipart body;
* `POST` builds an `httpMsg` from the request and appends it to `msgs`;
* every other method falls out of the `switch` without doing anything.

The handler is modelled as a pure function from the current value of `msgs` and
the request to the new value of `msgs` together with the sequence of operations
it performs on the mutex and on the `http.ResponseWriter`.  What the handler
takes from its surroundings (the clock, the boundary drawn by
`multipart.NewWriter`, the outcome of each write to the client) is an explicit
`Env`.  Diagnostic output (`logger.Debugf`, `fmt.Printf`) goes to the process's
log streams only and is left out.
-/

namespace CloudEventSink

/-! ## Strings and bytes -/

/-- A Go `[]byte`. -/
abbrev Bytes := List UInt8

/-- The conversion `[]byte(s)`: the UTF-8 bytes of `s`. -/
def bytesOf (s : String) : Bytes :=
  s.data.flatMap String.utf8EncodeChar

/-- Decimal digits of an integer: `strconv.Itoa` and `strconv.FormatInt(_, 10)`. -/
def itoa (i : Int) : String :=
  if i < 0 then "-" ++ Nat.repr i.natAbs else Nat.repr i.toNat

/-! ## `strings.EqualFold` -/

/-- One step of the loop of `strings.EqualFold` on the runes `sr` and `tr`:
equal runes match; otherwise the two are ordered so that `lo < hi`, an ASCII
`hi` matches exactly when `lo` is an upper-case letter and `hi` its lower-case
form, and a non-ASCII `hi` matches when it is reached from `lo` by
`unicode.SimpleFold`.  The only non-ASCII runes whose fold orbit contains an
ASCII rune are U+017F (with `S`, `s`) and U+212A (with `K`, `k`); for two
different runes of which the smaller is not ASCII the model answers `false`,
which is exact whenever one of the two strings is ASCII, as at the one call
site of the program (`"/count"`). -/
def foldEq (sr tr : Char) : Bool :=
  if tr = sr then true
  else
    let lo := min sr.toNat tr.toNat
    let hi := max sr.toNat tr.toNat
    if hi < 128 then
      decide (65 ≤ lo ∧ lo ≤ 90 ∧ hi = lo + 32)
    else
      decide ((lo = 83 ∨ lo = 115) ∧ hi = 383) || decide ((lo = 75 ∨ lo = 107) ∧ hi = 8490)

/-- The rune loop of `strings.EqualFold`: both strings are consumed rune by
rune, and they are equal under folding when they run out together. -/
def equalFoldRunes : List Char → List Char → Bool
  | [], [] => true
  | sr :: s, tr :: t => if foldEq sr tr then equalFoldRunes s t else false
  | _, _ => false

/-- Go's `strings.EqualFold(s, t)`. -/
def equalFold (s t : String) : Bool :=
  equalFoldRunes s.data t.data

/-! ## `textproto.MIMEHeader` -/

/-- Go's `validHeaderFieldByte`: the token characters of RFC 7230. -/
def validHeaderFieldByte (c : Char) : Bool :=
  let n := c.toNat
  (48 ≤ n && n ≤ 57) || (65 ≤ n && n ≤ 90) || (97 ≤ n && n ≤ 122) ||
  n = 33 || n = 35 || n = 36 || n = 37 || n = 38 || n = 39 || n = 42 || n = 43 ||
  n = 45 || n = 46 || n = 94 || n = 95 || n = 96 || n = 124 || n = 126

/-- The second loop of Go's `canonicalMIMEHeaderKey`: the first letter and every
letter after a `-` is made upper case, every other letter lower case.  `upper`
says whether the next letter is to be upper case. -/
def canonLoop : Bool → List Char → List Char
  | _, [] => []
  | upper, c :: cs =>
    let c1 :=
      if upper && decide (97 ≤ c.toNat ∧ c.toNat ≤ 122) then Char.ofNat (c.toNat - 32)
      else if !upper && decide (65 ≤ c.toNat ∧ c.toNat ≤ 90) then Char.ofNat (c.toNat + 32)
      else c
    c1 :: canonLoop (c1 = '-') cs

/-- Go's `textproto.CanonicalMIMEHeaderKey`: a key holding a byte that is not a
token character is returned unchanged, any other key is canonicalised. -/
def canonicalMIMEHeaderKey (s : String) : String :=
  if s.data.all validHeaderFieldByte then String.mk (canonLoop true s.data) else s

/-- Go's `textproto.MIMEHeader`, a `map[string][]string`, kept as the list of
its entries in the order the keys were first added. -/
structure MIMEHeader where
  entries : List (String × List String)
deriving DecidableEq, Repr

namespace MIMEHeader

/-- The map read `h[k]`: the value list stored under `k`, `nil` when there is none. -/
def lookup (h : MIMEHeader) (k : String) : List String :=
  match h.entries.find? (fun e => e.1 = k) with
  | some e => e.2
  | none => []

/-- Replacing or creating one entry of an entry list. -/
def setEntries : List (String × List String) → String → List String → List (String × List String)
  | [], k, vs => [(k, vs)]
  | e :: es, k, vs => if e.1 = k then (k, vs) :: es else e :: setEntries es k vs

/-- The map write `h[k] = vs`. -/
def set (h : MIMEHeader) (k : String) (vs : List String) : MIMEHeader :=
  ⟨setEntries h.entries k vs⟩

/-- Go's `MIMEHeader.Add`: `key = CanonicalMIMEHeaderKey(key); h[key] = append(h[key], value)`. -/
def Add (h : MIMEHeader) (key value : String) : MIMEHeader :=
  let k := canonicalMIMEHeaderKey key
  h.set k (h.lookup k ++ [value])

/-- Go's `MIMEHeader.Values`: the values stored under the canonical form of `key`. -/
def Values (h : MIMEHeader) (key : String) : List String :=
  h.lookup (canonicalMIMEHeaderKey key)

end MIMEHeader

/-! ## The data model -/

/-- The Go type `headers`: one header name with its values. -/
structure headers where
  name : String
  values : List String
deriving DecidableEq, Repr

/-- The Go type `httpMsgMeta`. -/
structure httpMsgMeta where
  contentLength : Int
  headers : List CloudEventSink.headers
  nsec : Int
  path : String
  method : String
  host : String
deriving DecidableEq, Repr

/-- The Go type `httpMsg`: the metadata, embedded, and the body. -/
structure httpMsg extends httpMsgMeta where
  body : Bytes
deriving DecidableEq, Repr

/-- The initial value of the global `msgs`. -/
def msgs : List httpMsg := []

/-- The request body `r.Body` as `ioutil.ReadAll` sees it: the bytes the reader
yields, and the error that ends the stream (`none` for a clean end). -/
structure Body where
  data : Bytes
  err : Option String
deriving DecidableEq, Repr

/-- The fields of `*http.Request` the handler reads.  `URL` is `r.URL.String()`;
`Header` lists the entries of the map `r.Header` in the order `range` yields
them; `Body` is `none` for a nil `r.Body`. -/
structure Request where
  Method : String
  Host : String
  URL : String
  RequestURI : String
  Header : List (String × List String)
  Body : Option CloudEventSink.Body
  ContentLength : Int
deriving DecidableEq, Repr

/-- What one run of the handler takes from its surroundings: `now` is
`time.Now().Nanosecond()`, `boundary` the boundary drawn by
`multipart.NewWriter`, and `result k` the outcome of the `k`-th operation of the
multipart writer on the connection (`none`: no error). -/
structure Env where
  now : Int
  boundary : String
  result : Nat → Option String

/-- The operations the handler performs on the mutex `msgsLock` and on the
response writer `w`, in program order. -/
inductive Event where
  | lock
  | unlock
  | setHeader (key value : String)
  | write (b : Bytes)
  | createPart (n : MIMEHeader)
  | partWrite (b : Bytes)
  | mwClose
  | httpError (msg : String) (code : Nat)
deriving DecidableEq, Repr

/-! ## The handler -/

/-- The part header `n` the dump builds for one stored message: every captured
value is added under its header name, then the five metadata headers. -/
def partHeader (lmsg : httpMsg) : MIMEHeader :=
  let n : MIMEHeader := ⟨[]⟩
  let n := lmsg.headers.foldl (fun n h => h.values.foldl (fun n v => n.Add h.name v) n) n
  let n := n.Add "__EVENT_RECORDER_TIME_NSEC" (itoa lmsg.nsec)
  let n := n.Add "__EVENT_RECORDER_CONTENT_LENGTH" (itoa lmsg.contentLength)
  let n := n.Add "__EVENT_RECORDER_PATH" lmsg.path
  let n := n.Add "__EVENT_RECORDER_METHOD" lmsg.method
  n.Add "__EVENT_RECORDER_HOST" lmsg.host

/-- The loop `for _, lmsg := range lmsgs` of the dump followed by `mw.Close()`.
`k` counts the operations of the multipart writer so far.  An operation that
fails is followed by `http.Error(w, err.Error(), 500)` and the handler returns. -/
def dump (result : Nat → Option String) : Nat → List httpMsg → List Event
  | k, [] =>
    match result k with
    | some err => [Event.mwClose, Event.httpError err 500]
    | none => [Event.mwClose]
  | k, lmsg :: rest =>
    match result k with
    | some err => [Event.createPart (partHeader lmsg), Event.httpError err 500]
    | none =>
      match result (k + 1) with
      | some err =>
        [Event.createPart (partHeader lmsg), Event.partWrite lmsg.body, Event.httpError err 500]
      | none =>
        Event.createPart (partHeader lmsg) :: Event.partWrite lmsg.body :: dump result (k + 2) rest

/-- Go's `Writer.FormDataContentType` for a boundary without special characters. -/
def formDataContentType (boundary : String) : String :=
  "multipart/form-data; boundary=" ++ boundary

/-- Go's `ioutil.ReadAll`: the bytes read until the stream ends, and the error
that ended it, if any. -/
def readAll (b : Body) : Bytes × Option String :=
  (b.data, b.err)

/-- The message the `POST` branch builds from the request.  The error returned
by `ioutil.ReadAll` is assigned to `_`. -/
def newMsg (env : Env) (r : Request) : httpMsg :=
  { path := r.URL
    method := r.Method
    host := r.Host
    body := match r.Body with
      | some b => (readAll b).1
      | none => []
    contentLength := match r.Body with
      | some _ => r.ContentLength
      | none => 0
    nsec := match r.Body with
      | some _ => env.now
      | none => 0
    headers := r.Header.map (fun e => { name := e.1, values := e.2 }) }

/-- The handler registered by `cloudeventsMain`: from the current `msgs` and the
request to the new `msgs` and the operations performed.  A deferred
`msgsLock.Unlock()` runs when the handler returns, so it is the last event of
its branch. -/
def cloudeventsMain (env : Env) (msgs : List httpMsg) (r : Request) :
    List httpMsg × List Event :=
  if r.Method = "DELETE" then
    ([], [Event.lock, Event.unlock])
  else if r.Method = "GET" then
    let lmsgs := msgs
    if equalFold "/count" r.RequestURI then
      let count := lmsgs.length
      (msgs, [Event.lock, Event.write (bytesOf (itoa count)), Event.unlock])
    else
      (msgs,
        [Event.lock, Event.setHeader "Content-Type" (formDataContentType env.boundary)]
          ++ dump env.result 0 lmsgs ++ [Event.unlock])
  else if r.Method = "POST" then
    let msg := newMsg env r
    (msgs ++ [msg], [Event.lock, Event.unlock])
  else
    (msgs, [])

/-- Serving a sequence of requests one after another: each request is handled
on the `msgs` the previous one left. -/
def serve (msgs : List httpMsg) (reqs : List (Env × Request)) : List httpMsg :=
  reqs.foldl (fun s p => (cloudeventsMain p.1 s p.2).1) msgs

/-- The five metadata header names of the dump, as written in the source. -/
def reservedNames : List String :=
  ["__EVENT_RECORDER_TIME_NSEC", "__EVENT_RECORDER_CONTENT_LENGTH",
   "__EVENT_RECORDER_PATH", "__EVENT_RECORDER_METHOD", "__EVENT_RECORDER_HOST"]

/-- The keys under which `MIMEHeader.Add` stores the five metadata headers. -/
def reservedKeys : List String :=
  reservedNames.map canonicalMIMEHeaderKey

/-- The values the captured headers `hs` contribute under the key `k`, in the
order of `hs`. -/
def captured (hs : List headers) (k : String) : List String :=
  hs.flatMap (fun h => if k = canonicalMIMEHeaderKey h.name then h.values else [])

/-! ## Reading a trace -/

/-- The parts of a trace: each `CreatePart` paired with the body written to it. -/
def partsOf : List Event → List (MIMEHeader × Bytes)
  | [] => []
  | Event.createPart n :: Event.partWrite b :: rest => (n, b) :: partsOf rest
  | _ :: rest => partsOf rest

/-- An operation that sends bytes of the response to the client. -/
def isResponseWrite : Event → Bool
  | Event.write _ => true
  | Event.createPart _ => true
  | Event.partWrite _ => true
  | Event.mwClose => true
  | Event.httpError _ _ => true
  | _ => false

/-- No response write of the trace happens while `msgsLock` is held; `held`
says whether the mutex is held when the trace starts. -/
def writesOutsideLock : Bool → List Event → Bool
  | _, [] => true
  | _, Event.lock :: es => writesOutsideLock true es
  | _, Event.unlock :: es => writesOutsideLock false es
  | held, e :: es => (!held || !isResponseWrite e) && writesOutsideLock held es

/-- Every response write of the trace happens while `msgsLock` is held. -/
def writesUnderLock : Bool → List Event → Bool
  | _, [] => true
  | _, Event.lock :: es => writesUnderLock true es
  | _, Event.unlock :: es => writesUnderLock false es
  | held, e :: es => (held || !isResponseWrite e) && writesUnderLock held es

/-- An environment in which no write to the client fails. -/
def quietEnv : Env :=
  { now := 0, boundary := "b", result := fun _ => none }

/-- A `GET /` request. -/
def getRoot : Request :=
  { Method := "GET", Host := "sink", URL := "/", RequestURI := "/", Header := [],
    Body := some { data := [], err := none }, ContentLength := 0 }

/-- A `GET /Count` request. -/
def getCount : Request :=
  { Method := "GET", Host := "sink", URL := "/Count", RequestURI := "/Count", Header := [],
    Body := some { data := [], err := none }, ContentLength := 0 }

/-- A `DELETE /` request. -/
def deleteRoot : Request :=
  { Method := "DELETE", Host := "sink", URL := "/", RequestURI := "/", Header := [],
    Body := some { data := [], err := none }, ContentLength := 0 }

/-- A `POST /e?x=1` request with the header `X-Test: a`, `X-Test: b` and a
three-byte body. -/
def postTwo : Request :=
  { Method := "POST", Host := "sink", URL := "/e?x=1", RequestURI := "/e?x=1",
    Header := [("Content-Type", ["text/plain"]), ("X-Test", ["a", "b"])],
    Body := some { data := [1, 2, 3], err := none }, ContentLength := 3 }

/-- A `POST` whose body stream breaks after two bytes. -/
def postBroken : Request :=
  { Method := "POST", Host := "sink", URL := "/e", RequestURI := "/e", Header := [],
    Body := some { data := [7, 8], err := some "unexpected EOF" }, ContentLength := 10 }

/-- A `PUT /` request. -/
def putRoot : Request :=
  { Method := "PUT", Host := "sink", URL := "/", RequestURI := "/", Header := [],
    Body := some { data := [9], err := none }, ContentLength := 1 }

/-- A `POST` carrying a header whose name is a reserved metadata name. -/
def postClash : Request :=
  { Method := "POST", Host := "sink", URL := "/p", RequestURI := "/p",
    Header := [("__event_recorder_path", ["/forged"])],
    Body := some { data := [], err := none }, ContentLength := 0 }

/-! ## Case folding -/

/-- A code point below the surrogates is the code of the character made from it. -/
theorem toNat_ofNat_small (m : Nat) (h : m < 55296) : (Char.ofNat m).toNat = m := by
  have hv : m.isValidChar := Or.inl h
  simp only [Char.ofNat, hv, dite_true]
  simp [Char.ofNatAux, Char.toNat, UInt32.toNat]

/-- Characters with the same code are equal. -/
theorem toNat_injective (a b : Char) (h : a.toNat = b.toNat) : a = b := by
  have := congrArg Char.ofNat h
  simpa [Char.ofNat_toNat] using this

/-- Lower-casing `x` gives a character `a` that is not an upper-case letter
exactly when `x` is `a` or the upper-case form of `a`. -/
theorem toLower_eq_iff (a x : Char) (hnu : ¬ (65 ≤ a.toNat ∧ a.toNat ≤ 90)) :
    x.toLower = a ↔ x = a ∨ (65 ≤ x.toNat ∧ x.toNat ≤ 90 ∧ x.toNat + 32 = a.toNat) := by
  by_cases hu : x.toNat ≥ 65 ∧ x.toNat ≤ 90
  · have hl : x.toLower = Char.ofNat (x.toNat + 32) := by
      unfold Char.toLower; exact if_pos hu
    rw [hl]
    constructor
    · intro h
      have h2 := congrArg Char.toNat h
      rw [toNat_ofNat_small _ (by omega)] at h2
      exact Or.inr ⟨hu.1, hu.2, h2⟩
    · rintro (h | ⟨_, _, h⟩)
      · subst h; exact absurd hu hnu
      · apply toNat_injective
        rw [toNat_ofNat_small _ (by omega)]; exact h
  · have hl : x.toLower = x := by
      unfold Char.toLower; exact if_neg hu
    rw [hl]
    constructor
    · intro h; exact Or.inl h
    · rintro (h | ⟨h1, h2, _⟩)
      · exact h
      · exact absurd ⟨h1, h2⟩ hu

/-- Against an ASCII character that is neither an upper-case letter nor `k` nor
`s`, one step of `EqualFold` is equality after lower-casing. -/
theorem foldEq_iff_toLower (a x : Char) (ha : a.toNat < 128)
    (hnu : ¬ (65 ≤ a.toNat ∧ a.toNat ≤ 90)) (hk : a.toNat ≠ 107) (hs : a.toNat ≠ 115) :
    foldEq a x = true ↔ x.toLower = a := by
  rw [toLower_eq_iff a x hnu]
  unfold foldEq
  by_cases hx : x = a
  · simp [hx]
  · have hne : x.toNat ≠ a.toNat := fun h => hx (toNat_injective _ _ h)
    simp only [hx, if_false, false_or]
    rcases Nat.lt_or_gt_of_ne hne with hlt | hgt
    · rw [Nat.min_eq_right (Nat.le_of_lt hlt), Nat.max_eq_left (Nat.le_of_lt hlt)]
      simp only [ha, if_true, decide_eq_true_eq]
      omega
    · rw [Nat.min_eq_left (Nat.le_of_lt hgt), Nat.max_eq_right (Nat.le_of_lt hgt)]
      split
      · simp only [decide_eq_true_eq]; omega
      · simp only [Bool.or_eq_true, decide_eq_true_eq]; omega

/-- Against a lower-case ASCII string without `k` and `s`, the rune loop of
`EqualFold` is equality after lower-casing. -/
theorem equalFoldRunes_iff (a x : List Char)
    (ha : ∀ c ∈ a, c.toNat < 128 ∧ ¬ (65 ≤ c.toNat ∧ c.toNat ≤ 90) ∧ c.toNat ≠ 107 ∧ c.toNat ≠ 115) :
    equalFoldRunes a x = true ↔ x.map Char.toLower = a := by
  induction a generalizing x with
  | nil => cases x <;> simp [equalFoldRunes]
  | cons c cs ih =>
    cases x with
    | nil => simp [equalFoldRunes]
    | cons y ys =>
      have hc := ha c (by simp)
      have := foldEq_iff_toLower c y hc.1 hc.2.1 hc.2.2.1 hc.2.2.2
      have ih2 := ih ys (fun d hd => ha d (by simp [hd]))
      simp only [equalFoldRunes, List.map_cons, List.cons.injEq]
      rw [← this, ← ih2]
      cases foldEq c y <;> simp
/-- The test of the count mode, `strings.EqualFold("/count", r.RequestURI)`,
holds exactly when the target, with its ASCII letters lower-cased, is `/count`. -/
theorem equalFold_count_iff (uri : String) :
    equalFold "/count" uri = true ↔ uri.data.map Char.toLower = "/count".data := by
  unfold equalFold
  exact equalFoldRunes_iff "/count".data uri.data (by decide)

theorem equalFold_count_false (uri : String)
    (h : uri.data.map Char.toLower ≠ "/count".data) :
    equalFold "/count" uri = false := by
  cases hb : equalFold "/count" uri with
  | false => rfl
  | true => exact absurd ((equalFold_count_iff uri).1 hb) h

/-! ## Basic facts about the handler -/

theorem cloudeventsMain_delete (env : Env) (S : List httpMsg) (r : Request)
    (h : r.Method = "DELETE") :
    cloudeventsMain env S r = ([], [Event.lock, Event.unlock]) := by
  simp [cloudeventsMain, h]

theorem cloudeventsMain_post (env : Env) (S : List httpMsg) (r : Request)
    (h : r.Method = "POST") :
    cloudeventsMain env S r = (S ++ [newMsg env r], [Event.lock, Event.unlock]) := by
  have h1 : ¬ ("POST" = "DELETE") := by decide
  have h2 : ¬ ("POST" = "GET") := by decide
  simp [cloudeventsMain, h, h1, h2]

theorem cloudeventsMain_get_store (env : Env) (S : List httpMsg) (r : Request)
    (h : r.Method = "GET") :
    (cloudeventsMain env S r).1 = S := by
  have h1 : ¬ ("GET" = "DELETE") := by decide
  simp only [cloudeventsMain, h, h1, if_false, if_true]
  split <;> rfl

theorem cloudeventsMain_get_count (env : Env) (S : List httpMsg) (r : Request)
    (h : r.Method = "GET") (hc : equalFold "/count" r.RequestURI = true) :
    cloudeventsMain env S r
      = (S, [Event.lock, Event.write (bytesOf (itoa S.length)), Event.unlock]) := by
  have h1 : ¬ ("GET" = "DELETE") := by decide
  simp [cloudeventsMain, h, h1, hc]

theorem cloudeventsMain_get_dump (env : Env) (S : List httpMsg) (r : Request)
    (h : r.Method = "GET") (hc : equalFold "/count" r.RequestURI = false) :
    cloudeventsMain env S r
      = (S, [Event.lock, Event.setHeader "Content-Type" (formDataContentType env.boundary)]
          ++ dump env.result 0 S ++ [Event.unlock]) := by
  have h1 : ¬ ("GET" = "DELETE") := by decide
  simp [cloudeventsMain, h, h1, hc]

theorem cloudeventsMain_other (env : Env) (S : List httpMsg) (r : Request)
    (hD : r.Method ≠ "DELETE") (hG : r.Method ≠ "GET") (hP : r.Method ≠ "POST") :
    cloudeventsMain env S r = (S, []) := by
  simp [cloudeventsMain, hD, hG, hP]

/-- With no failing write, the dump loop emits one `CreatePart` and one body
write per message, in order, and then closes the multipart writer. -/
theorem dump_quiet (result : Nat → Option String) (hq : ∀ k, result k = none)
    (k : Nat) (S : List httpMsg) :
    dump result k S
      = S.flatMap (fun m => [Event.createPart (partHeader m), Event.partWrite m.body])
          ++ [Event.mwClose] := by
  induction S generalizing k with
  | nil => simp [dump, hq]
  | cons m rest ih => simp [dump, hq, ih]

theorem partsOf_flatMap (S : List httpMsg) (tl : List Event)
    (htl : partsOf tl = []) :
    partsOf (S.flatMap (fun m => [Event.createPart (partHeader m), Event.partWrite m.body]) ++ tl)
      = S.map (fun m => (partHeader m, m.body)) := by
  induction S with
  | nil => simpa using htl
  | cons m rest ih => simpa [partsOf] using ih

/-- The dump, whatever fails, keeps every response write under the lock that
the handler still holds. -/
theorem dump_writesUnderLock (result : Nat → Option String) (k : Nat) (S : List httpMsg) :
    writesUnderLock true (dump result k S ++ [Event.unlock]) = true := by
  induction S generalizing k with
  | nil =>
    unfold dump
    split <;> simp [writesUnderLock, isResponseWrite]
  | cons m rest ih =>
    unfold dump
    split
    · simp [writesUnderLock, isResponseWrite]
    · split
      · simp [writesUnderLock, isResponseWrite]
      · simpa [writesUnderLock, isResponseWrite] using ih (k + 2)

/-- The first operation of the dump is a response write made with the lock held. -/
theorem dump_writesOutsideLock (result : Nat → Option String) (k : Nat) (S : List httpMsg)
    (tl : List Event) :
    writesOutsideLock true (dump result k S ++ tl) = false := by
  cases S with
  | nil =>
    unfold dump
    split <;> simp [writesOutsideLock, isResponseWrite]
  | cons m rest =>
    unfold dump
    split
    · simp [writesOutsideLock, isResponseWrite]
    · split <;> simp [writesOutsideLock, isResponseWrite]

/-- A request other than DELETE adds one record when it is a POST and none
otherwise. -/
theorem cloudeventsMain_length (env : Env) (S : List httpMsg) (r : Request)
    (hD : r.Method ≠ "DELETE") :
    (cloudeventsMain env S r).1.length
      = S.length + (if r.Method = "POST" then 1 else 0) := by
  by_cases hP : r.Method = "POST"
  · rw [cloudeventsMain_post env S r hP]; simp [hP]
  · by_cases hG : r.Method = "GET"
    · rw [cloudeventsMain_get_store env S r hG]; simp [hP]
    · rw [cloudeventsMain_other env S r hD hG hP]; simp [hP]

/-- Serving requests among which there is no DELETE grows the store by the
number of POST requests. -/
theorem serve_length (S : List httpMsg) (reqs : List (Env × Request))
    (hD : ∀ p ∈ reqs, p.2.Method ≠ "DELETE") :
    (serve S reqs).length
      = S.length + (reqs.filter (fun p => p.2.Method = "POST")).length := by
  induction reqs generalizing S with
  | nil => simp [serve]
  | cons p rest ih =>
    have hp := hD p (by simp)
    have hrest : ∀ q ∈ rest, q.2.Method ≠ "DELETE" := fun q hq => hD q (by simp [hq])
    have hstep : serve S (p :: rest) = serve (cloudeventsMain p.1 S p.2).1 rest := by
      simp [serve]
    rw [hstep, ih _ hrest, cloudeventsMain_length p.1 S p.2 hp]
    by_cases hP : p.2.Method = "POST"
    · simp [hP]; omega
    · simp [hP]

theorem itoa_natCast (n : Nat) : itoa (n : Int) = Nat.repr n := by
  simp [itoa]

/-! ## The part header -/

namespace MIMEHeader

/-- Reading a map after one write. -/
theorem lookup_set (h : MIMEHeader) (k : String) (vs : List String) (k1 : String) :
    (h.set k vs).lookup k1 = if k1 = k then vs else h.lookup k1 := by
  obtain ⟨es⟩ := h
  simp only [set, lookup]
  induction es with
  | nil =>
    by_cases hk : k1 = k
    · simp [setEntries, hk]
    · have hk2 : ¬ (k = k1) := fun h => hk h.symm
      simp [setEntries, hk, hk2]
  | cons e es ih =>
    by_cases he : e.1 = k
    · by_cases hk : k1 = k
      · simp [setEntries, he, hk]
      · have hk2 : ¬ (k = k1) := fun h => hk h.symm
        simp [setEntries, he, hk, hk2, List.find?_cons]
    · by_cases hk1 : e.1 = k1
      · have hk : ¬ (k1 = k) := fun h => he (hk1.trans h)
        simp [setEntries, he, hk, hk1, List.find?_cons]
      · simp only [setEntries, he, if_false, List.find?_cons, hk1, decide_False]
        exact ih

/-- The method `Add` appends the value to the list under the canonical key and leaves
every other key alone. -/
theorem lookup_Add (h : MIMEHeader) (key value k1 : String) :
    (h.Add key value).lookup k1
      = h.lookup k1 ++ (if k1 = canonicalMIMEHeaderKey key then [value] else []) := by
  simp only [Add, lookup_set]
  by_cases hk : k1 = canonicalMIMEHeaderKey key
  · simp [hk]
  · simp [hk]

/-- The inner loop of the dump, `for _, v := range h.values`, appends the
values in order under the canonical form of the name. -/
theorem lookup_addValues (n : MIMEHeader) (name : String) (vs : List String) (k1 : String) :
    (vs.foldl (fun n v => n.Add name v) n).lookup k1
      = n.lookup k1 ++ (if k1 = canonicalMIMEHeaderKey name then vs else []) := by
  induction vs generalizing n with
  | nil => simp
  | cons v vs ih =>
    simp only [List.foldl_cons, ih, lookup_Add]
    by_cases hk : k1 = canonicalMIMEHeaderKey name <;> simp [hk]
end MIMEHeader

/-- The outer loop of the dump, `for _, h := range lmsg.headers`. -/
theorem lookup_addHeaders (n : MIMEHeader) (hs : List headers) (k : String) :
    (hs.foldl (fun n h => h.values.foldl (fun n v => n.Add h.name v) n) n).lookup k
      = n.lookup k ++ captured hs k := by
  induction hs generalizing n with
  | nil => simp [captured]
  | cons h hs ih =>
    simp only [List.foldl_cons, ih, MIMEHeader.lookup_addValues]
    simp [captured]

/-- The value list a part header holds under a key: what the captured headers
contribute, followed by the metadata value when the key is the canonical form
of a reserved name. -/
theorem lookup_partHeader (m : httpMsg) (k : String) :
    (partHeader m).lookup k
      = captured m.headers k
        ++ (if k = canonicalMIMEHeaderKey "__EVENT_RECORDER_TIME_NSEC" then [itoa m.nsec] else [])
        ++ (if k = canonicalMIMEHeaderKey "__EVENT_RECORDER_CONTENT_LENGTH"
              then [itoa m.contentLength] else [])
        ++ (if k = canonicalMIMEHeaderKey "__EVENT_RECORDER_PATH" then [m.path] else [])
        ++ (if k = canonicalMIMEHeaderKey "__EVENT_RECORDER_METHOD" then [m.method] else [])
        ++ (if k = canonicalMIMEHeaderKey "__EVENT_RECORDER_HOST" then [m.host] else []) := by
  simp only [partHeader, MIMEHeader.lookup_Add, lookup_addHeaders]
  simp [MIMEHeader.lookup]

/-- Among headers whose canonical names are pairwise different, the values
contributed under the canonical name of one of them are its own values. -/
theorem captured_of_nodup (hs : List headers) (h : headers)
    (hmem : h ∈ hs)
    (hnd : (hs.map (fun x => canonicalMIMEHeaderKey x.name)).Nodup) :
    captured hs (canonicalMIMEHeaderKey h.name) = h.values := by
  induction hs with
  | nil => simp at hmem
  | cons x xs ih =>
    simp only [List.map_cons, List.nodup_cons, List.mem_map, not_exists, not_and] at hnd
    have hcons : captured (x :: xs) (canonicalMIMEHeaderKey h.name)
        = (if canonicalMIMEHeaderKey h.name = canonicalMIMEHeaderKey x.name then x.values else [])
            ++ captured xs (canonicalMIMEHeaderKey h.name) := by
      simp [captured]
    rw [hcons]
    rcases List.mem_cons.1 hmem with heq | hin
    · subst heq
      have hnone : captured xs (canonicalMIMEHeaderKey h.name) = [] := by
        simp only [captured, List.flatMap_eq_nil_iff]
        intro y hy
        simp only [ite_eq_right_iff]
        intro e
        exact absurd e.symm (hnd.1 y hy)
      simp [hnone]
    · have hne : canonicalMIMEHeaderKey h.name ≠ canonicalMIMEHeaderKey x.name :=
        fun e => hnd.1 h hin e
      simp [hne, ih hin hnd.2]

/-- A key under which no captured header with a value is stored gets nothing
from the captured headers. -/
theorem captured_eq_nil (hs : List headers) (k : String)
    (hk : ∀ h ∈ hs, h.values ≠ [] → canonicalMIMEHeaderKey h.name ≠ k) :
    captured hs k = [] := by
  simp only [captured, List.flatMap_eq_nil_iff]
  intro h hh
  by_cases hv : h.values = []
  · simp [hv]
  · simp only [ite_eq_right_iff]
    intro e
    exact absurd e.symm (hk h hh hv)

/-- The parts of a dump in which no write fails: one per stored message, in
store order. -/
theorem partsOf_dump_quiet (env : Env) (S : List httpMsg) (r : Request)
    (hget : r.Method = "GET") (hdump : equalFold "/count" r.RequestURI = false)
    (hquiet : ∀ k, env.result k = none) :
    partsOf (cloudeventsMain env S r).2 = S.map (fun m => (partHeader m, m.body)) := by
  rw [cloudeventsMain_get_dump env S r hget hdump, dump_quiet env.result hquiet]
  have := partsOf_flatMap S [Event.mwClose, Event.unlock] (by simp [partsOf])
  simpa [partsOf] using this

theorem canonical_time_nsec :
    canonicalMIMEHeaderKey "__EVENT_RECORDER_TIME_NSEC" = "__event_recorder_time_nsec" := by
  decide

theorem canonical_content_length :
    canonicalMIMEHeaderKey "__EVENT_RECORDER_CONTENT_LENGTH"
      = "__event_recorder_content_length" := by
  decide

theorem canonical_path :
    canonicalMIMEHeaderKey "__EVENT_RECORDER_PATH" = "__event_recorder_path" := by
  decide

theorem canonical_method :
    canonicalMIMEHeaderKey "__EVENT_RECORDER_METHOD" = "__event_recorder_method" := by
  decide

theorem canonical_host :
    canonicalMIMEHeaderKey "__EVENT_RECORDER_HOST" = "__event_recorder_host" := by
  decide

/-- The five value lists of a part header under the reserved names: the values
of the captured headers stored under the same key, then the metadata value. -/
theorem values_reserved (m : httpMsg) :
    (partHeader m).Values "__EVENT_RECORDER_TIME_NSEC"
      = captured m.headers "__event_recorder_time_nsec" ++ [itoa m.nsec] ∧
    (partHeader m).Values "__EVENT_RECORDER_CONTENT_LENGTH"
      = captured m.headers "__event_recorder_content_length" ++ [itoa m.contentLength] ∧
    (partHeader m).Values "__EVENT_RECORDER_PATH"
      = captured m.headers "__event_recorder_path" ++ [m.path] ∧
    (partHeader m).Values "__EVENT_RECORDER_METHOD"
      = captured m.headers "__event_recorder_method" ++ [m.method] ∧
    (partHeader m).Values "__EVENT_RECORDER_HOST"
      = captured m.headers "__event_recorder_host" ++ [m.host] := by
  simp only [MIMEHeader.Values, lookup_partHeader, canonical_time_nsec,
    canonical_content_length, canonical_path, canonical_method, canonical_host]
  refine ⟨?_, ?_, ?_, ?_, ?_⟩ <;> simp

/-! ## The claims -/

/-- C2: handling a POST leaves the store equal to the old store followed by
exactly one new record: the old records keep their positions, and the new
record's path, method, host and body are the request's URL string, method,
Host and the bytes read from its body. -/
theorem post_appends_one_record (env : Env) (S : List httpMsg) (r : Request)
    (hpost : r.Method = "POST") :
    let S1 := (cloudeventsMain env S r).1
    S1 = S ++ [newMsg env r] ∧
    S1.length = S.length + 1 ∧
    (∀ i, i < S.length → S1[i]? = S[i]?) ∧
    S1[S.length]? = some (newMsg env r) ∧
    (newMsg env r).path = r.URL ∧
    (newMsg env r).method = r.Method ∧
    (newMsg env r).host = r.Host ∧
    (newMsg env r).body = (match r.Body with
      | some b => (readAll b).1
      | none => []) := by
  rw [cloudeventsMain_post env S r hpost]
  refine ⟨rfl, by simp, ?_, by simp, rfl, rfl, rfl, rfl⟩
  intro i hi
  simp [List.getElem?_append_left hi]

theorem post_appends_one_record_witness :
    postTwo.Method = "POST" ∧
    (cloudeventsMain quietEnv [newMsg quietEnv postTwo] postTwo).1
      = [newMsg quietEnv postTwo, newMsg quietEnv postTwo] ∧
    (newMsg quietEnv postTwo).path = "/e?x=1" ∧
    (newMsg quietEnv postTwo).body = [1, 2, 3] :=
  ⟨by decide,
   (post_appends_one_record quietEnv [newMsg quietEnv postTwo] postTwo (by decide)).1,
   by decide, by decide⟩

/-- C3: a GET whose target is not "/count" under case folding, when no part
creation or write fails, emits exactly one part per stored record, in store
order, and the body of the i-th part is the body of the i-th record. -/
theorem dump_parts_in_store_order (env : Env) (S : List httpMsg) (r : Request)
    (hget : r.Method = "GET")
    (hdump : r.RequestURI.data.map Char.toLower ≠ "/count".data)
    (hquiet : ∀ k, env.result k = none) :
    (cloudeventsMain env S r).2
      = [Event.lock, Event.setHeader "Content-Type" (formDataContentType env.boundary)]
          ++ S.flatMap (fun m => [Event.createPart (partHeader m), Event.partWrite m.body])
          ++ [Event.mwClose, Event.unlock] ∧
    (partsOf (cloudeventsMain env S r).2).length = S.length ∧
    ∀ i (hi : i < S.length),
      (partsOf (cloudeventsMain env S r).2)[i]? = some (partHeader S[i], S[i].body) := by
  rw [cloudeventsMain_get_dump env S r hget (equalFold_count_false _ hdump),
    dump_quiet env.result hquiet]
  have hp : partsOf ([Event.lock,
        Event.setHeader "Content-Type" (formDataContentType env.boundary)]
        ++ (S.flatMap (fun m => [Event.createPart (partHeader m), Event.partWrite m.body])
            ++ [Event.mwClose]) ++ [Event.unlock])
      = S.map (fun m => (partHeader m, m.body)) := by
    have := partsOf_flatMap S [Event.mwClose, Event.unlock] (by simp [partsOf])
    simpa [partsOf] using this
  refine ⟨by simp, ?_, ?_⟩
  · simp only [hp, List.length_map]
  · intro i hi
    simp only [hp]
    simp [hi]

theorem dump_parts_in_store_order_witness :
    (partsOf (cloudeventsMain quietEnv
        [newMsg quietEnv postTwo, newMsg quietEnv postBroken] getRoot).2).length = 2 ∧
    (partsOf (cloudeventsMain quietEnv
        [newMsg quietEnv postTwo, newMsg quietEnv postBroken] getRoot).2)[1]?
      = some (partHeader (newMsg quietEnv postBroken), [7, 8]) :=
  ⟨(dump_parts_in_store_order quietEnv [newMsg quietEnv postTwo, newMsg quietEnv postBroken]
      getRoot (by decide) (by decide) (fun _ => rfl)).2.1,
   (dump_parts_in_store_order quietEnv [newMsg quietEnv postTwo, newMsg quietEnv postBroken]
      getRoot (by decide) (by decide) (fun _ => rfl)).2.2 1 (by decide)⟩

/-- C1: starting from the empty store, after any sequence of requests that
holds exactly N POST requests and no DELETE, a GET whose target is "/count" up
to the case of its letters performs one write on the response, and the bytes
written are exactly the decimal digits of N. -/
theorem count_reports_number_of_posts (N : Nat) (reqs : List (Env × Request))
    (env : Env) (g : Request)
    (hnodelete : ∀ p ∈ reqs, p.2.Method ≠ "DELETE")
    (hposts : (reqs.filter (fun p => p.2.Method = "POST")).length = N)
    (hget : g.Method = "GET")
    (htarget : g.RequestURI.data.map Char.toLower = "/count".data) :
    (cloudeventsMain env (serve msgs reqs) g).2
      = [Event.lock, Event.write (bytesOf (Nat.repr N)), Event.unlock] := by
  rw [cloudeventsMain_get_count env _ g hget ((equalFold_count_iff _).2 htarget),
    serve_length msgs reqs hnodelete, hposts, ← itoa_natCast]
  simp [msgs]

theorem count_reports_number_of_posts_witness :
    (cloudeventsMain quietEnv (serve msgs []) getCount).2
        = [Event.lock, Event.write [48], Event.unlock] ∧
    (cloudeventsMain quietEnv
        (serve msgs [(quietEnv, postTwo), (quietEnv, getRoot), (quietEnv, postBroken),
          (quietEnv, putRoot), (quietEnv, postTwo)]) getCount).2
        = [Event.lock, Event.write [51], Event.unlock] :=
  ⟨count_reports_number_of_posts 0 [] quietEnv getCount
      (by decide) (by decide) (by decide) (by decide),
   count_reports_number_of_posts 3
      [(quietEnv, postTwo), (quietEnv, getRoot), (quietEnv, postBroken),
        (quietEnv, putRoot), (quietEnv, postTwo)] quietEnv getCount
      (by decide) (by decide) (by decide) (by decide)⟩

/-- C4: handling a DELETE leaves the store empty whatever it held, so that a
count asked right after writes "0"; a DELETE on the empty store leaves it empty
and completes with nothing written, and a second DELETE changes nothing. -/
theorem delete_empties_store (env env1 env2 : Env) (S : List httpMsg) (d d1 g : Request)
    (hd : d.Method = "DELETE") (hd1 : d1.Method = "DELETE")
    (hget : g.Method = "GET")
    (htarget : g.RequestURI.data.map Char.toLower = "/count".data) :
    (cloudeventsMain env S d).1 = [] ∧
    (cloudeventsMain env1 (cloudeventsMain env S d).1 g).2
      = [Event.lock, Event.write (bytesOf "0"), Event.unlock] ∧
    cloudeventsMain env [] d = ([], [Event.lock, Event.unlock]) ∧
    cloudeventsMain env2 (cloudeventsMain env S d).1 d1 = cloudeventsMain env S d := by
  rw [cloudeventsMain_delete env S d hd, cloudeventsMain_delete env [] d hd,
    cloudeventsMain_delete env2 _ d1 hd1,
    cloudeventsMain_get_count env1 _ g hget ((equalFold_count_iff _).2 htarget)]
  exact ⟨rfl, rfl, rfl, rfl⟩

theorem delete_empties_store_witness :
    deleteRoot.Method = "DELETE" ∧
    (cloudeventsMain quietEnv [newMsg quietEnv postTwo] deleteRoot).1 = [] ∧
    (cloudeventsMain quietEnv
        (cloudeventsMain quietEnv [newMsg quietEnv postTwo] deleteRoot).1 getCount).2
      = [Event.lock, Event.write [48], Event.unlock] :=
  ⟨by decide,
   (delete_empties_store quietEnv quietEnv quietEnv [newMsg quietEnv postTwo]
      deleteRoot deleteRoot getCount (by decide) (by decide) (by decide) (by decide)).1,
   (delete_empties_store quietEnv quietEnv quietEnv [newMsg quietEnv postTwo]
      deleteRoot deleteRoot getCount (by decide) (by decide) (by decide) (by decide)).2.1⟩

/-- C5: handling a GET, in count mode or in dump mode and whether or not a
write of the dump fails, leaves the store as it was; so of two dumps made one
right after the other the second serializes the same records as the first, and
when their writes meet the same outcomes it performs the same part creations
and body writes: same parts, same headers, same bodies. -/
theorem get_leaves_store_unchanged (env env1 : Env) (S : List httpMsg) (r r1 : Request)
    (hget : r.Method = "GET") (hget1 : r1.Method = "GET") :
    (cloudeventsMain env S r).1 = S ∧
    (r.RequestURI.data.map Char.toLower ≠ "/count".data →
      r1.RequestURI.data.map Char.toLower ≠ "/count".data →
      (cloudeventsMain env S r).2.drop 2 = dump env.result 0 S ++ [Event.unlock] ∧
      (cloudeventsMain env1 (cloudeventsMain env S r).1 r1).2.drop 2
        = dump env1.result 0 S ++ [Event.unlock] ∧
      ((∀ k, env.result k = env1.result k) →
        (cloudeventsMain env1 (cloudeventsMain env S r).1 r1).2.drop 2
          = (cloudeventsMain env S r).2.drop 2 ∧
        partsOf (cloudeventsMain env1 (cloudeventsMain env S r).1 r1).2
          = partsOf (cloudeventsMain env S r).2)) := by
  refine ⟨cloudeventsMain_get_store env S r hget, ?_⟩
  intro hr hr1
  rw [cloudeventsMain_get_dump env S r hget (equalFold_count_false _ hr),
    cloudeventsMain_get_dump env1 S r1 hget1 (equalFold_count_false _ hr1)]
  refine ⟨by simp, by simp, ?_⟩
  intro hres
  have hfun : env.result = env1.result := funext hres
  rw [hfun]
  exact ⟨by simp, by simp [partsOf]⟩

theorem get_leaves_store_unchanged_witness :
    getRoot.Method = "GET" ∧
    (cloudeventsMain quietEnv [newMsg quietEnv postTwo] getRoot).1
      = [newMsg quietEnv postTwo] ∧
    partsOf (cloudeventsMain quietEnv
        (cloudeventsMain quietEnv [newMsg quietEnv postTwo] getRoot).1 getRoot).2
      = partsOf (cloudeventsMain quietEnv [newMsg quietEnv postTwo] getRoot).2 :=
  ⟨by decide,
   (get_leaves_store_unchanged quietEnv quietEnv [newMsg quietEnv postTwo] getRoot getRoot
      (by decide) (by decide)).1,
   (((get_leaves_store_unchanged quietEnv quietEnv [newMsg quietEnv postTwo] getRoot getRoot
      (by decide) (by decide)).2 (by decide) (by decide)).2.2 (fun _ => rfl)).2⟩

/-- C8: a POST whose body stream yields some bytes and then ends, cleanly or
with an error, makes the handler append exactly one record whose body is those
bytes; the handler writes nothing on the response and reports no error. -/
theorem post_keeps_bytes_read (env : Env) (S : List httpMsg) (r : Request) (b : Body)
    (hpost : r.Method = "POST") (hbody : r.Body = some b) :
    cloudeventsMain env S r = (S ++ [newMsg env r], [Event.lock, Event.unlock]) ∧
    (newMsg env r).body = b.data ∧
    (cloudeventsMain env S r).1.length = S.length + 1 ∧
    ∀ e ∈ (cloudeventsMain env S r).2, isResponseWrite e = false := by
  rw [cloudeventsMain_post env S r hpost]
  refine ⟨rfl, ?_, by simp, ?_⟩
  · simp [newMsg, hbody, readAll]
  · intro e he
    simp at he
    rcases he with he | he <;> subst he <;> rfl

theorem post_keeps_bytes_read_witness :
    postBroken.Method = "POST" ∧
    postBroken.Body = some { data := [7, 8], err := some "unexpected EOF" } ∧
    cloudeventsMain quietEnv [] postBroken
      = ([newMsg quietEnv postBroken], [Event.lock, Event.unlock]) ∧
    (newMsg quietEnv postBroken).body = [7, 8] :=
  ⟨by decide, by decide,
   (post_keeps_bytes_read quietEnv [] postBroken
      { data := [7, 8], err := some "unexpected EOF" } (by decide) (by decide)).1,
   (post_keeps_bytes_read quietEnv [] postBroken
      { data := [7, 8], err := some "unexpected EOF" } (by decide) (by decide)).2.1⟩

/-- C9: a request whose method is none of POST, GET and DELETE makes the
handler perform no operation at all (no write on the response, no error
status) and leaves the store as it was; over all requests, the store either
stays the same, or gains one record (POST), or becomes empty (DELETE). -/
theorem other_methods_do_nothing (env : Env) (S : List httpMsg) (r : Request)
    (hP : r.Method ≠ "POST") (hG : r.Method ≠ "GET") (hD : r.Method ≠ "DELETE") :
    cloudeventsMain env S r = (S, []) ∧
    ∀ (env1 : Env) (S1 : List httpMsg) (r1 : Request),
      (r1.Method = "POST" ∧ (cloudeventsMain env1 S1 r1).1.length = S1.length + 1) ∨
      (r1.Method = "DELETE" ∧ (cloudeventsMain env1 S1 r1).1.length = 0) ∨
      (r1.Method ≠ "POST" ∧ r1.Method ≠ "DELETE" ∧ (cloudeventsMain env1 S1 r1).1 = S1) := by
  refine ⟨cloudeventsMain_other env S r hD hG hP, ?_⟩
  intro env1 S1 r1
  by_cases h1 : r1.Method = "POST"
  · left
    rw [cloudeventsMain_post env1 S1 r1 h1]
    exact ⟨h1, by simp⟩
  · by_cases h2 : r1.Method = "DELETE"
    · right; left
      rw [cloudeventsMain_delete env1 S1 r1 h2]
      exact ⟨h2, rfl⟩
    · right; right
      refine ⟨h1, h2, ?_⟩
      by_cases h3 : r1.Method = "GET"
      · exact cloudeventsMain_get_store env1 S1 r1 h3
      · rw [cloudeventsMain_other env1 S1 r1 h2 h3 h1]

theorem other_methods_do_nothing_witness :
    putRoot.Method ≠ "POST" ∧ putRoot.Method ≠ "GET" ∧ putRoot.Method ≠ "DELETE" ∧
    cloudeventsMain quietEnv [newMsg quietEnv postTwo] putRoot
      = ([newMsg quietEnv postTwo], []) :=
  ⟨by decide, by decide, by decide,
   (other_methods_do_nothing quietEnv [newMsg quietEnv postTwo] putRoot
      (by decide) (by decide) (by decide)).1⟩

/-- C10, as stated, fails: a dump of the empty store closes the multipart
writer, which writes the closing boundary on the response, while the lock taken
at the start of the GET branch is still held. -/
theorem dump_writes_while_lock_held :
    getRoot.Method = "GET" ∧
    equalFold "/count" getRoot.RequestURI = false ∧
    (cloudeventsMain quietEnv [] getRoot).2
      = [Event.lock, Event.setHeader "Content-Type" "multipart/form-data; boundary=b",
          Event.mwClose, Event.unlock] ∧
    writesOutsideLock false (cloudeventsMain quietEnv [] getRoot).2 = false := by
  decide

/-- C10, amended: in the dump path of a GET the lock is taken first and, its
release being deferred, is released last, when the handler returns; every
write on the response (part creation, part body write, multipart close, error
report) happens while the lock is held, and at least one does. -/
theorem dump_holds_lock_throughout (env : Env) (S : List httpMsg) (r : Request)
    (hget : r.Method = "GET")
    (hdump : r.RequestURI.data.map Char.toLower ≠ "/count".data) :
    (cloudeventsMain env S r).2
      = Event.lock :: (Event.setHeader "Content-Type" (formDataContentType env.boundary)
          :: dump env.result 0 S) ++ [Event.unlock] ∧
    writesUnderLock false (cloudeventsMain env S r).2 = true ∧
    writesOutsideLock false (cloudeventsMain env S r).2 = false := by
  rw [cloudeventsMain_get_dump env S r hget (equalFold_count_false _ hdump)]
  refine ⟨by simp, ?_, ?_⟩
  · simpa [writesUnderLock, isResponseWrite] using dump_writesUnderLock env.result 0 S
  · simpa [writesOutsideLock, isResponseWrite] using
      dump_writesOutsideLock env.result 0 S [Event.unlock]

theorem dump_holds_lock_throughout_witness :
    getRoot.Method = "GET" ∧
    writesUnderLock false
      (cloudeventsMain quietEnv [newMsg quietEnv postTwo] getRoot).2 = true :=
  ⟨by decide,
   (dump_holds_lock_throughout quietEnv [newMsg quietEnv postTwo] getRoot
      (by decide) (by decide)).2.1⟩

/-- C6: for a POST whose header names are pairwise different as header names
(Go compares them in canonical form), a name that is not a reserved metadata
name and carries the values v1..vk in the request carries exactly v1..vk, in
the same order, in the part the dump builds for the record of that request. -/
theorem header_values_round_trip (env env1 : Env) (S : List httpMsg) (r g : Request)
    (name : String) (vs : List String)
    (hpost : r.Method = "POST")
    (hmem : (name, vs) ∈ r.Header)
    (hkeys : (r.Header.map (fun e => canonicalMIMEHeaderKey e.1)).Nodup)
    (hres : canonicalMIMEHeaderKey name ∉ reservedKeys)
    (hget : g.Method = "GET")
    (hdump : g.RequestURI.data.map Char.toLower ≠ "/count".data)
    (hquiet : ∀ k, env1.result k = none) :
    (partsOf (cloudeventsMain env1 (cloudeventsMain env S r).1 g).2)[S.length]?
      = some (partHeader (newMsg env r), (newMsg env r).body) ∧
    (partHeader (newMsg env r)).Values name = vs := by
  constructor
  · rw [partsOf_dump_quiet env1 _ g hget (equalFold_count_false _ hdump) hquiet,
      cloudeventsMain_post env S r hpost]
    simp
  · have hcap : captured (newMsg env r).headers (canonicalMIMEHeaderKey name) = vs := by
      have hm : ({ name := name, values := vs } : headers) ∈ (newMsg env r).headers := by
        simp only [newMsg, List.mem_map]
        exact ⟨(name, vs), hmem, rfl⟩
      have hnd : ((newMsg env r).headers.map
          (fun x => canonicalMIMEHeaderKey x.name)).Nodup := by
        simpa [newMsg, Function.comp_def] using hkeys
      exact captured_of_nodup _ _ hm hnd
    simp only [reservedKeys, reservedNames, List.map_cons, List.map_nil, List.mem_cons,
      List.mem_singleton, List.not_mem_nil, or_false, not_or] at hres
    obtain ⟨h1, h2, h3, h4, h5⟩ := hres
    simp only [MIMEHeader.Values, lookup_partHeader, hcap]
    simp [h1, h2, h3, h4, h5]

theorem header_values_round_trip_witness :
    postTwo.Method = "POST" ∧
    ("X-Test", ["a", "b"]) ∈ postTwo.Header ∧
    (partHeader (newMsg quietEnv postTwo)).Values "X-Test" = ["a", "b"] :=
  ⟨by decide, by decide,
   (header_values_round_trip quietEnv quietEnv [] postTwo getRoot "X-Test" ["a", "b"]
      (by decide) (by decide) (by decide) (by decide) (by decide) (by decide)
      (fun _ => rfl)).2⟩

/-- C7, as stated, fails: a request carrying a header whose name is a reserved
metadata name is stored under the same key of the part header as the metadata,
so the reserved name does collide with a captured header, and the first value
under it is the captured one, not the record's path. -/
theorem reserved_name_collides :
    postClash.Method = "POST" ∧
    (cloudeventsMain quietEnv [] postClash).1 = [newMsg quietEnv postClash] ∧
    (newMsg quietEnv postClash).path = "/p" ∧
    canonicalMIMEHeaderKey "__event_recorder_path"
      = canonicalMIMEHeaderKey "__EVENT_RECORDER_PATH" ∧
    (partHeader (newMsg quietEnv postClash)).Values "__EVENT_RECORDER_PATH"
      = ["/forged", "/p"] ∧
    (partHeader (newMsg quietEnv postClash)).Values "__EVENT_RECORDER_PATH"
      ≠ [(newMsg quietEnv postClash).path] := by
  decide

/-- C7, amended: the part header of every record holds a value list under each
of the five reserved metadata names, and the last value of each list is the
record's nanosecond count (decimal), content length (decimal), path, method and
host; when no captured header with a value has a reserved name as its name,
each of the five lists is that single value. -/
theorem metadata_headers_present (m : httpMsg) :
    (((partHeader m).Values "__EVENT_RECORDER_TIME_NSEC").getLast? = some (itoa m.nsec) ∧
     ((partHeader m).Values "__EVENT_RECORDER_CONTENT_LENGTH").getLast?
        = some (itoa m.contentLength) ∧
     ((partHeader m).Values "__EVENT_RECORDER_PATH").getLast? = some m.path ∧
     ((partHeader m).Values "__EVENT_RECORDER_METHOD").getLast? = some m.method ∧
     ((partHeader m).Values "__EVENT_RECORDER_HOST").getLast? = some m.host) ∧
    ((∀ h ∈ m.headers, h.values ≠ [] → canonicalMIMEHeaderKey h.name ∉ reservedKeys) →
      (partHeader m).Values "__EVENT_RECORDER_TIME_NSEC" = [itoa m.nsec] ∧
      (partHeader m).Values "__EVENT_RECORDER_CONTENT_LENGTH" = [itoa m.contentLength] ∧
      (partHeader m).Values "__EVENT_RECORDER_PATH" = [m.path] ∧
      (partHeader m).Values "__EVENT_RECORDER_METHOD" = [m.method] ∧
      (partHeader m).Values "__EVENT_RECORDER_HOST" = [m.host]) := by
  obtain ⟨v1, v2, v3, v4, v5⟩ := values_reserved m
  rw [v1, v2, v3, v4, v5]
  refine ⟨by simp, ?_⟩
  intro hfree
  have hk : ∀ k ∈ reservedKeys, captured m.headers k = [] := by
    intro k hk
    apply captured_eq_nil
    intro h hh hv e
    exact hfree h hh hv (e ▸ hk)
  have hkeys : reservedKeys = ["__event_recorder_time_nsec", "__event_recorder_content_length",
      "__event_recorder_path", "__event_recorder_method", "__event_recorder_host"] := by
    decide
  rw [hkeys] at hk
  rw [hk _ (by simp), hk _ (by simp), hk _ (by simp), hk _ (by simp), hk _ (by simp)]
  simp

theorem metadata_headers_present_witness :
    ((partHeader (newMsg quietEnv postTwo)).Values "__EVENT_RECORDER_CONTENT_LENGTH").getLast?
      = some "3" ∧
    (partHeader (newMsg quietEnv postTwo)).Values "__EVENT_RECORDER_PATH" = ["/e?x=1"] :=
  ⟨(metadata_headers_present (newMsg quietEnv postTwo)).1.2.1,
   ((metadata_headers_present (newMsg quietEnv postTwo)).2 (by decide)).2.2.1⟩

end CloudEventSink
